import Mathlib

/-!
Verification development for the mcp-docs data-processing agent
(`src/agents/data-processing`): the tenant-scoped LightRAG instance pool
(`rag/pool.py`), the document processing pipeline (`processor/pipeline.py`,
`processor/html_cleaner.py`) and the Kafka ingestion loop
(`consumer/kafka_consumer.py`).

The embedding is shallow: Python classes become Lean structures, the
`OrderedDict` underlying the pool becomes a list of wrappers ordered
oldest-first (most-recently-used at the tail), wall-clock timestamps become
`Int` values supplied by the caller, and every external effect (the LightRAG
backend, base64/gzip decoding, BeautifulSoup cleaning, the Kafka transport)
becomes an explicit oracle parameter.  `try/except` blocks become `Except`
values matched at the same points the source matches exception types.
-/

namespace McpDocs

/-! ## Pool model — `rag/pool.py`

`LightRAGWrapper` mirrors the dataclass of the same name (the opaque
`rag: LightRAG` handle is dropped; its identity is the `collection_id` the
pool keys it by).  The pool state is the `OrderedDict` of wrappers,
oldest-first.  `finalize_storages` may raise; the source always swallows that
inside `try/except`, which we model with a `close_fails` oracle whose answer
is recorded in the returned close-attempt list but never consulted for the
state. -/

structure LightRAGWrapper where
  collection_id : String
  created_at : Int
  last_used : Int
deriving DecidableEq

abbrev Pool := List LightRAGWrapper

def poolKeys (s : Pool) : List String := s.map (·.collection_id)

/-- Outcome of `LightRAGPool.get` when it raises: `popitem` on an empty
`OrderedDict` raises `KeyError` (only reachable with `max_instances = 0`),
and `_create_instance` may raise (backend construction failure). -/
inductive GetErr where
  | keyError
  | createError
deriving DecidableEq

/-- The `while len(self.instances) >= self.max_instances:
popitem(last=False)` loop in `get`.  Returns the remaining pool and the
evicted collection ids in eviction order; `error` is the `KeyError` from
popping an empty dict (the dict is empty at that point). -/
def evictWhile (max_instances : Nat) : Pool → Except (List String) (Pool × List String)
  | [] => if max_instances ≤ 0 then .error [] else .ok ([], [])
  | w :: rest =>
    if max_instances ≤ (w :: rest).length then
      match evictWhile max_instances rest with
      | .ok (s2, evs) => .ok (s2, w.collection_id :: evs)
      | .error evs => .error (w.collection_id :: evs)
    else .ok (w :: rest, [])

structure GetResult where
  state : Pool
  evicted : List String
  closes : List (String × Bool)
  err : Option GetErr
deriving DecidableEq

/-- `LightRAGPool.get(collection_id)`.  On hit: `move_to_end`, refresh
`last_used`, no eviction and no backend construction.  On miss: evict
oldest entries while at capacity (closing each, close failure swallowed),
then construct a new instance (`create_fails` = the construction raising,
which propagates: the tenant is not inserted) and append it most recently
used. -/
def LightRAGPool.get (close_fails : String → Bool) (max_instances : Nat)
    (create_fails : Bool) (now : Int) (collection_id : String) (s : Pool) : GetResult :=
  match s.find? (fun w => w.collection_id == collection_id) with
  | some w =>
      { state := (s.filter (fun w2 => w2.collection_id != collection_id))
                   ++ [{ w with last_used := now }],
        evicted := [], closes := [], err := none }
  | none =>
    match evictWhile max_instances s with
    | .error evs =>
        { state := [], evicted := evs,
          closes := evs.map (fun c => (c, close_fails c)), err := some .keyError }
    | .ok (s2, evs) =>
      if create_fails then
        { state := s2, evicted := evs,
          closes := evs.map (fun c => (c, close_fails c)), err := some .createError }
      else
        { state := s2 ++ [⟨collection_id, now, now⟩], evicted := evs,
          closes := evs.map (fun c => (c, close_fails c)), err := none }

/-- `LightRAGPool.release(collection_id)`: pop if present, close swallowed,
no-op if absent. -/
def LightRAGPool.release (close_fails : String → Bool) (collection_id : String)
    (s : Pool) : Pool × List (String × Bool) :=
  if s.any (fun w => w.collection_id == collection_id) then
    (s.filter (fun w => w.collection_id != collection_id),
     [(collection_id, close_fails collection_id)])
  else (s, [])

/-- `LightRAGPool.cleanup_expired()`: collect the ids whose
`now - last_used > ttl_seconds`, pop each (closing it, failure swallowed),
return the new state, the close attempts and `len(expired)`. -/
def LightRAGPool.cleanup_expired (close_fails : String → Bool)
    (ttl_seconds now : Int) (s : Pool) : Pool × List (String × Bool) × Nat :=
  let expired := (s.filter (fun w => ttl_seconds < now - w.last_used)).map (·.collection_id)
  let s2 := expired.foldl (fun acc c => acc.filter (fun w => w.collection_id != c)) s
  (s2, expired.map (fun c => (c, close_fails c)), expired.length)

/-- `LightRAGPool.close_all()`: close every instance (failures swallowed),
then `clear()`. -/
def LightRAGPool.close_all (close_fails : String → Bool) (s : Pool) :
    Pool × List (String × Bool) :=
  (([] : Pool), s.map (fun w => (w.collection_id, close_fails w.collection_id)))

/-- One operation against the pool, for reasoning about operation
sequences.  All four execute under the pool's single `asyncio.Lock`, so a
sequence of operations is exactly an interleaving-free list. -/
inductive PoolOp where
  | get (collection_id : String) (now : Int) (create_fails : Bool)
  | release (collection_id : String)
  | evictExpired (now : Int)
  | closeAll
deriving DecidableEq

def applyOp (max_instances : Nat) (ttl_seconds : Int) (close_fails : String → Bool)
    (s : Pool) : PoolOp → Pool
  | .get cid now cf => (LightRAGPool.get close_fails max_instances cf now cid s).state
  | .release cid => (LightRAGPool.release close_fails cid s).1
  | .evictExpired now => (LightRAGPool.cleanup_expired close_fails ttl_seconds now s).1
  | .closeAll => (LightRAGPool.close_all close_fails s).1

/-- The pool states reached after each prefix of an operation sequence,
starting from the empty pool `LightRAGPool.__init__` creates. -/
def poolStates (max_instances : Nat) (ttl_seconds : Int) (close_fails : String → Bool)
    (ops : List PoolOp) : List Pool :=
  ops.scanl (applyOp max_instances ttl_seconds close_fails) []

/-! ## Message models — `models/messages.py`

Pydantic models become plain structures.  `metadata: dict` carries opaque
values; we model it as an association list with string-rendered values,
and `discovered_at` as an integer timestamp — neither field is read by any
code under verification. -/

structure PageContent where
  html : String
  text : String
  title : String
  content_type : String
  encoding : String
  html_size : Nat
deriving DecidableEq

structure IndexingJobMessage where
  job_id : Int
  request_id : Int
  project_id : Int
  user_id : String
  collection_id : String
  url : String
  depth : Int
  parent_url : String
  content : Option PageContent
  discovered_at : Int
  metadata : List (String × String)
deriving DecidableEq

structure ProcessingResult where
  job_id : Int
  collection_id : String
  url : String
  success : Bool
  error_message : Option String
  text_length : Nat
  processing_time_ms : Int
deriving DecidableEq

/-! ## HTML helpers — `processor/html_cleaner.py`

The base64+gzip+utf-8 decoding chain and BeautifulSoup are external
libraries; each is an oracle: `decode blob` is `.ok text` when the blob
round-trips and `.error msg` when any step of the chain raises (the source
catches `Exception` there), likewise `soup_clean` for the
BeautifulSoup-and-regex body of `clean_html_to_text`. -/

/-- Result of `decompress_html`: the returned string or the raised
`ValueError`'s message.  Every raise site in the source constructs a
`ValueError`. -/
inductive DecompressResult where
  | ok (text : String)
  | valueError (msg : String)
deriving DecidableEq

/-- `decompress_html(compressed, encoding)`.  `not compressed` is Python
string falsiness, i.e. the empty string. -/
def decompress_html (decode : String → Except String String)
    (compressed encoding : String) : DecompressResult :=
  if encoding = "plain" ∨ compressed = "" then .ok compressed
  else if encoding = "gzip+base64" then
    match decode compressed with
    | .ok text => .ok text
    | .error e => .valueError ("Failed to decompress HTML: " ++ e)
  else .valueError ("Unknown encoding: " ++ encoding)

/-- `clean_html_to_text(html)`: empty input yields `""`; any exception from
the soup/regex body is caught and yields `""`. -/
def clean_html_to_text (soup_clean : String → Except String String)
    (html : String) : String :=
  if html = "" then ""
  else
    match soup_clean html with
    | .ok text => text
    | .error _ => ""

/-! ## Document pipeline — `processor/pipeline.py`

External effects of `_process_internal` become oracles in `PipeEnv`:
`get_err cid = some msg` means `rag_pool.get(cid)` raised with message
`msg`, `insert_err doc_id text = some msg` means `rag.ainsert` raised, and
`elapsed_ms` abstracts the `time.time()` arithmetic.  The pipeline also
yields the trace of backend calls it performed, so that "no pool `get`
occurred" is expressible. -/

structure PipeEnv where
  decode : String → Except String String
  soup_clean : String → Except String String
  get_err : String → Option String
  insert_err : String → String → Option String
  elapsed_ms : Int

inductive PipeEvent where
  | poolGet (collection_id : String)
  | insert (doc_id text : String)
deriving DecidableEq

/-- `DocumentProcessor._extract_text(job)`: prefer pre-extracted text, else
decompress and clean the HTML, else raise.  A `ValueError` raised by
`decompress_html` propagates.  Python truthiness: `job.content` is `None`
or a (truthy) model instance; `content.text` / `content.html` are falsy
exactly when empty. -/
def DocumentProcessor.extract_text (env : PipeEnv) (job : IndexingJobMessage) :
    Except String String :=
  match job.content with
  | none => .error "Job has no content"
  | some c =>
    if c.text ≠ "" then .ok c.text
    else if c.html ≠ "" then
      match decompress_html env.decode c.html c.encoding with
      | .ok html => .ok (clean_html_to_text env.soup_clean html)
      | .valueError msg => .error msg
    else .error "Job has neither text nor HTML content"

def ProcessingResult.failure (env : PipeEnv) (job : IndexingJobMessage)
    (msg : String) : ProcessingResult :=
  { job_id := job.job_id, collection_id := job.collection_id, url := job.url,
    success := false, error_message := some msg, text_length := 0,
    processing_time_ms := env.elapsed_ms }

/-- `DocumentProcessor._process_internal(job)`: the body of the single
`try/except Exception` — every raise inside it is converted to a failed
`ProcessingResult` carrying `str(e)`.  Returns the result together with the
backend calls made.  `doc_id` is `job.url`. -/
def DocumentProcessor.process_internal (env : PipeEnv) (job : IndexingJobMessage) :
    ProcessingResult × List PipeEvent :=
  match DocumentProcessor.extract_text env job with
  | .error msg => (ProcessingResult.failure env job msg, [])
  | .ok text =>
    if text = "" then
      (ProcessingResult.failure env job "No text content extracted from document", [])
    else
      match env.get_err job.collection_id with
      | some msg =>
          (ProcessingResult.failure env job msg, [PipeEvent.poolGet job.collection_id])
      | none =>
        match env.insert_err job.url text with
        | some msg =>
            (ProcessingResult.failure env job msg,
             [PipeEvent.poolGet job.collection_id, PipeEvent.insert job.url text])
        | none =>
            ({ job_id := job.job_id, collection_id := job.collection_id,
               url := job.url, success := true, error_message := none,
               text_length := text.length, processing_time_ms := env.elapsed_ms },
             [PipeEvent.poolGet job.collection_id, PipeEvent.insert job.url text])

/-- `DocumentProcessor.process(job)`: acquires the `max_workers` semaphore
(which only bounds how many calls run concurrently) and delegates to
`_process_internal`; the per-call semantics are those of
`_process_internal`. -/
def DocumentProcessor.process (env : PipeEnv) (job : IndexingJobMessage) :
    ProcessingResult × List PipeEvent :=
  DocumentProcessor.process_internal env job

/-! ## Ingestion loop — `consumer/kafka_consumer.py`

Per record, `consume` runs

  try:
    job = IndexingJobMessage(**message.value)   # may raise ValidationError
    await self.message_handler(job)             # may raise
    await self.consumer.commit()
  except json.JSONDecodeError: commit()         # skip malformed message
  except Exception: pass                        # no commit

`message.value` has already been produced by the `value_deserializer`
lambda (`json.loads`) inside aiokafka's fetcher, so by the time the loop
body runs, JSON decoding has succeeded: a `json.JSONDecodeError` raised by
the deserializer propagates out of `async for`, never into this `try`.
Constructing the pydantic `IndexingJobMessage` from a decoded dict raises
`pydantic.ValidationError` (a `ValueError`, not a `json.JSONDecodeError`)
on malformed payloads.  We model the parse step's outcome as
`Except PyExc IndexingJobMessage`, keeping the (unreachable)
`jsonDecodeError` alternative so that the source's `except` chain is
embedded as written. -/

inductive PyExc where
  | jsonDecodeError
  | validationError
  | otherExc
deriving DecidableEq

/-- Behaviour of one `await self.message_handler(job)` call: it either
returns a value or raises. -/
inductive HandlerBehavior where
  | returns (r : ProcessingResult)
  | raises
deriving DecidableEq

inductive LoopEvent where
  | dispatchStart (job : IndexingJobMessage)
  | dispatchEnd
  | commit
deriving DecidableEq

/-- Events of one iteration of the `async for` body in
`IndexingJobConsumer.consume`.  Note the commit after a returning handler
is unconditional: the handler's return value is discarded. -/
def recordEvents (handler : IndexingJobMessage → HandlerBehavior)
    (parsed : Except PyExc IndexingJobMessage) : List LoopEvent :=
  match parsed with
  | .ok job =>
    match handler job with
    | .returns _ => [LoopEvent.dispatchStart job, LoopEvent.dispatchEnd, LoopEvent.commit]
    | .raises => [LoopEvent.dispatchStart job, LoopEvent.dispatchEnd]
  | .error e =>
    match e with
    | .jsonDecodeError => [LoopEvent.commit]
    | _ => []

/-- The event trace of consuming a list of records sequentially, each
event tagged with the index of the record it belongs to. -/
def consumeTrace (handler : IndexingJobMessage → HandlerBehavior) :
    Nat → List (Except PyExc IndexingJobMessage) → List (Nat × LoopEvent)
  | _, [] => []
  | i, m :: rest =>
    (recordEvents handler m).map (fun e => (i, e)) ++ consumeTrace handler (i + 1) rest

def inFlightStep (p : Nat × Nat) : LoopEvent → Nat × Nat
  | .dispatchStart _ => (p.1 + 1, max p.2 (p.1 + 1))
  | .dispatchEnd => (p.1 - 1, p.2)
  | .commit => p

/-- Largest number of simultaneously in-flight handler calls along a
trace. -/
def maxInFlight (t : List (Nat × LoopEvent)) : Nat :=
  (t.foldl (fun p e => inFlightStep p e.2) (0, 0)).2

/-! ## Pool lemmas -/

/-- The capacity invariant of the pool: at most `max_instances` entries and
no tenant twice. -/
def PoolInv (max_instances : Nat) (s : Pool) : Prop :=
  s.length ≤ max_instances ∧ (poolKeys s).Nodup

theorem length_filter_lt_of_mem {α : Type _} {p : α → Bool} {a : α} {l : List α}
    (ha : a ∈ l) (hpa : p a = false) : (l.filter p).length < l.length := by
  induction l with
  | nil => cases ha
  | cons b t ih =>
    rcases List.mem_cons.mp ha with rfl | ht
    · rw [List.filter_cons_of_neg (by simp [hpa])]
      exact Nat.lt_succ_of_le (List.length_filter_le _ _)
    · by_cases hb : p b
      · rw [List.filter_cons_of_pos hb]
        simpa using Nat.succ_lt_succ (ih ht)
      · rw [List.filter_cons_of_neg hb]
        exact Nat.lt_succ_of_le (Nat.le_of_lt (ih ht))

theorem length_filter_add_length_filter_not {α : Type _} (p : α → Bool) (l : List α) :
    (l.filter p).length + (l.filter (fun a => !p a)).length = l.length := by
  induction l with
  | nil => rfl
  | cons a t ih =>
    by_cases h : p a <;> simp [List.filter_cons, h, ← ih] <;> omega

theorem evictWhile_ok {m : Nat} {s : Pool} :
    ∀ {s2 : Pool} {evs : List String}, evictWhile m s = Except.ok (s2, evs) →
      s2.length < m ∧ s2.Sublist s := by
  induction s with
  | nil =>
    intro s2 evs h
    by_cases hm : m ≤ 0
    · simp [evictWhile, hm] at h
    · simp [evictWhile, hm] at h
      obtain ⟨h1, _⟩ := h
      subst h1
      exact ⟨Nat.lt_of_not_le hm, List.Sublist.refl _⟩
  | cons w rest ih =>
    intro s2 evs h
    by_cases hm : m ≤ (w :: rest).length
    · simp only [evictWhile, if_pos hm] at h
      cases hev : evictWhile m rest with
      | ok p =>
        obtain ⟨s3, evs3⟩ := p
        rw [hev] at h
        simp only [Except.ok.injEq, Prod.mk.injEq] at h
        obtain ⟨h1, _⟩ := h
        subst h1
        obtain ⟨hl, hs⟩ := ih hev
        exact ⟨hl, hs.cons _⟩
      | error evs3 =>
        rw [hev] at h
        simp at h
    · simp only [evictWhile, if_neg hm] at h
      simp only [Except.ok.injEq, Prod.mk.injEq] at h
      obtain ⟨h1, _⟩ := h
      subst h1
      exact ⟨Nat.lt_of_not_le hm, List.Sublist.refl _⟩

theorem foldl_filter_eq_filter (cs : List String) (s : Pool) :
    cs.foldl (fun acc c => acc.filter (fun w => w.collection_id != c)) s
      = s.filter (fun w => !(cs.contains w.collection_id)) := by
  induction cs generalizing s with
  | nil => simp
  | cons c cs ih =>
    rw [List.foldl_cons, ih, List.filter_filter]
    apply List.filter_congr
    intro w _
    simp only [List.contains_cons, Bool.not_or, Bool.and_comm]
    rfl

theorem poolKeys_append (s t : Pool) : poolKeys (s ++ t) = poolKeys s ++ poolKeys t :=
  List.map_append _ _ _

theorem poolInv_get (cf : String → Bool) {mi : Nat} (crf : Bool) (now : Int)
    (cid : String) {s : Pool} (h : PoolInv mi s) :
    PoolInv mi (LightRAGPool.get cf mi crf now cid s).state := by
  obtain ⟨hlen, hnd⟩ := h
  unfold LightRAGPool.get
  cases hf : s.find? (fun w => w.collection_id == cid) with
  | some w =>
    have hw : w ∈ s := List.mem_of_find?_eq_some hf
    have hkey : w.collection_id = cid := by
      have := List.find?_some hf
      simpa using this
    constructor
    · simp only [List.length_append, List.length_cons, List.length_nil]
      have hlt : (s.filter (fun w2 => w2.collection_id != cid)).length < s.length :=
        length_filter_lt_of_mem hw (by simp [hkey])
      omega
    · rw [poolKeys_append]
      apply List.Nodup.append
      · exact ((List.filter_sublist s).map _).nodup hnd
      · simp [poolKeys]
      · intro k hk hk2
        simp only [poolKeys, List.mem_map, List.mem_filter] at hk
        obtain ⟨x, ⟨_, hx2⟩, hx3⟩ := hk
        simp only [poolKeys, List.map_cons, List.map_nil, List.mem_singleton] at hk2
        rw [hk2] at hx3
        simp only [hx3] at hx2
        simp [hkey] at hx2
  | none =>
    have hnmem : ∀ x ∈ s, x.collection_id ≠ cid := by
      intro x hx
      have := List.find?_eq_none.mp hf x hx
      simpa using this
    cases hev : evictWhile mi s with
    | error evs => exact ⟨by simp, by simp [poolKeys]⟩
    | ok p =>
      obtain ⟨s2, evs⟩ := p
      obtain ⟨hl2, hsub⟩ := evictWhile_ok hev
      dsimp only
      cases crf with
      | true =>
        rw [if_pos rfl]
        exact ⟨Nat.le_of_lt hl2, ((hsub.map _).nodup hnd)⟩
      | false =>
        rw [if_neg Bool.false_ne_true]
        dsimp only
        constructor
        · simp only [List.length_append, List.length_cons, List.length_nil]
          omega
        · rw [poolKeys_append]
          apply List.Nodup.append
          · exact (hsub.map _).nodup hnd
          · simp [poolKeys]
          · intro k hk hk2
            simp only [poolKeys, List.mem_map] at hk
            obtain ⟨x, hx1, hx2⟩ := hk
            simp only [poolKeys, List.map_cons, List.map_nil, List.mem_singleton] at hk2
            exact hnmem x (hsub.subset hx1) (hx2.trans hk2)

theorem poolInv_applyOp (mi : Nat) (ttl : Int) (cf : String → Bool) (op : PoolOp)
    {s : Pool} (h : PoolInv mi s) : PoolInv mi (applyOp mi ttl cf s op) := by
  cases op with
  | get cid now crf => exact poolInv_get cf crf now cid h
  | release cid =>
    unfold applyOp LightRAGPool.release
    dsimp only
    split
    · exact ⟨Nat.le_trans (List.length_filter_le _ _) h.1,
        ((List.filter_sublist s).map _).nodup h.2⟩
    · exact h
  | evictExpired now =>
    unfold applyOp LightRAGPool.cleanup_expired
    dsimp only
    rw [foldl_filter_eq_filter]
    exact ⟨Nat.le_trans (List.length_filter_le _ _) h.1,
      ((List.filter_sublist s).map _).nodup h.2⟩
  | closeAll =>
    exact ⟨Nat.zero_le _, List.nodup_nil⟩

/-- C3 — For every sequence of pool operations (`get`, `release`,
`evictExpired` = `cleanup_expired`, `closeAll` = `close_all`), after each
operation completes the pool holds at most `max_instances` entries and no
`collection_id` appears twice. -/
theorem c3_pool_bounded_and_tenant_unique (mi : Nat) (ttl : Int)
    (cf : String → Bool) (ops : List PoolOp) (s : Pool)
    (hs : s ∈ poolStates mi ttl cf ops) :
    s.length ≤ mi ∧ (poolKeys s).Nodup := by
  have main : ∀ (l : List PoolOp) (b : Pool), PoolInv mi b →
      ∀ x ∈ List.scanl (applyOp mi ttl cf) b l, PoolInv mi x := by
    intro l
    induction l with
    | nil =>
      intro b hb x hx
      simp [List.scanl] at hx
      rwa [hx]
    | cons op rest ih =>
      intro b hb x hx
      rw [List.scanl_cons] at hx
      rcases List.mem_append.mp hx with hx1 | hx2
      · rw [List.mem_singleton.mp hx1]
        exact hb
      · exact ih _ (poolInv_applyOp mi ttl cf op hb) x hx2
  exact main ops [] ⟨Nat.zero_le _, List.nodup_nil⟩ s hs

/-- Witness for C3 at a concrete operation sequence. -/
theorem c3_pool_bounded_and_tenant_unique_witness :
    (([⟨"A", 1, 1⟩, ⟨"B", 2, 2⟩] : Pool) ∈ poolStates 2 10 (fun _ => false)
      [PoolOp.get "A" 1 false, PoolOp.get "B" 2 false]) ∧
    (([⟨"A", 1, 1⟩, ⟨"B", 2, 2⟩] : Pool).length ≤ 2 ∧
      (poolKeys [⟨"A", 1, 1⟩, ⟨"B", 2, 2⟩]).Nodup) :=
  ⟨by decide, c3_pool_bounded_and_tenant_unique 2 10 (fun _ => false)
    [PoolOp.get "A" 1 false, PoolOp.get "B" 2 false] _ (by decide)⟩

theorem poolKeys_nodup_key_inj {s : Pool} (h : (poolKeys s).Nodup) {x y : LightRAGWrapper}
    (hx : x ∈ s) (hy : y ∈ s) (hk : x.collection_id = y.collection_id) : x = y :=
  List.inj_on_of_nodup_map h hx hy hk

/-- C5 — `cleanup_expired` retains exactly the entries with
`now - last_used ≤ ttl_seconds`, closes exactly the entries with
`now - last_used > ttl_seconds`, and returns the number it removed. -/
theorem c5_cleanup_expired_exact (cf : String → Bool) (ttl now : Int) (s : Pool)
    (h : (poolKeys s).Nodup) :
    (LightRAGPool.cleanup_expired cf ttl now s).1
        = s.filter (fun w => !(decide (ttl < now - w.last_used))) ∧
    ((LightRAGPool.cleanup_expired cf ttl now s).2.1).map Prod.fst
        = (s.filter (fun w => ttl < now - w.last_used)).map (·.collection_id) ∧
    (LightRAGPool.cleanup_expired cf ttl now s).2.2
        = (s.filter (fun w => ttl < now - w.last_used)).length ∧
    (LightRAGPool.cleanup_expired cf ttl now s).1.length
        + (LightRAGPool.cleanup_expired cf ttl now s).2.2 = s.length := by
  have h1 : (LightRAGPool.cleanup_expired cf ttl now s).1
      = s.filter (fun w => !(decide (ttl < now - w.last_used))) := by
    unfold LightRAGPool.cleanup_expired
    dsimp only
    rw [foldl_filter_eq_filter]
    apply List.filter_congr
    intro w hw
    by_cases hp : ttl < now - w.last_used
    · have : w.collection_id ∈
          (s.filter (fun w => decide (ttl < now - w.last_used))).map (·.collection_id) := by
        exact List.mem_map_of_mem _ (List.mem_filter.mpr ⟨hw, by simpa using hp⟩)
      simp [hp, List.contains, this]
    · have : w.collection_id ∉
          (s.filter (fun w => decide (ttl < now - w.last_used))).map (·.collection_id) := by
        intro hc
        obtain ⟨x, hx1, hx2⟩ := List.mem_map.mp hc
        obtain ⟨hx3, hx4⟩ := List.mem_filter.mp hx1
        have := poolKeys_nodup_key_inj h hx3 hw hx2
        rw [this] at hx4
        simp at hx4
        exact hp hx4
      simp [hp, List.contains, this]
  have h3 : (LightRAGPool.cleanup_expired cf ttl now s).2.2
      = (s.filter (fun w => ttl < now - w.last_used)).length := by
    unfold LightRAGPool.cleanup_expired
    simp
  refine ⟨h1, ?_, h3, ?_⟩
  · unfold LightRAGPool.cleanup_expired
    simp [List.map_map, Function.comp]
  · rw [h1, h3]
    have := length_filter_add_length_filter_not
      (fun w => decide (ttl < now - w.last_used)) s
    omega

/-- With a positive capacity, the eviction loop never raises. -/
theorem evictWhile_isOk {mi : Nat} (hmi : mi ≠ 0) (s : Pool) :
    ∃ p, evictWhile mi s = Except.ok p := by
  induction s with
  | nil =>
    refine ⟨([], []), ?_⟩
    simp [evictWhile, hmi]
  | cons w rest ih =>
    by_cases hm : mi ≤ (w :: rest).length
    · obtain ⟨⟨s2, evs⟩, hp⟩ := ih
      exact ⟨(s2, w.collection_id :: evs), by simp only [evictWhile, if_pos hm, hp]⟩
    · exact ⟨(w :: rest, []), by simp only [evictWhile, if_neg hm]⟩

/-- The eviction loop drops a prefix of the pool and reports exactly the
dropped keys. -/
theorem evictWhile_split {m : Nat} {s : Pool} :
    ∀ {s2 : Pool} {evs : List String}, evictWhile m s = Except.ok (s2, evs) →
      ∃ d : Pool, s = d ++ s2 ∧ evs = poolKeys d := by
  induction s with
  | nil =>
    intro s2 evs h
    by_cases hm : m ≤ 0
    · simp [evictWhile, hm] at h
    · simp [evictWhile, hm] at h
      obtain ⟨h1, h2⟩ := h
      subst h1
      subst h2
      exact ⟨[], rfl, rfl⟩
  | cons w rest ih =>
    intro s2 evs h
    by_cases hm : m ≤ (w :: rest).length
    · simp only [evictWhile, if_pos hm] at h
      cases hev : evictWhile m rest with
      | ok p =>
        obtain ⟨s3, evs3⟩ := p
        rw [hev] at h
        simp only [Except.ok.injEq, Prod.mk.injEq] at h
        obtain ⟨h1, h2⟩ := h
        subst h1
        subst h2
        obtain ⟨d, hd1, hd2⟩ := ih hev
        exact ⟨w :: d, by simp [hd1], by simp [poolKeys, hd2]⟩
      | error evs3 =>
        rw [hev] at h
        simp at h
    · simp only [evictWhile, if_neg hm] at h
      simp only [Except.ok.injEq, Prod.mk.injEq] at h
      obtain ⟨h1, h2⟩ := h
      subst h1
      subst h2
      exact ⟨[], rfl, rfl⟩

/-- `get`'s state and eviction choice do not depend on whether closing the
evicted instances fails: the `try/except` around `finalize_storages`
swallows the failure. -/
theorem get_close_oracle_irrelevant (cf cf2 : String → Bool) (mi : Nat) (crf : Bool)
    (now : Int) (cid : String) (s : Pool) :
    (LightRAGPool.get cf mi crf now cid s).state
        = (LightRAGPool.get cf2 mi crf now cid s).state ∧
    (LightRAGPool.get cf mi crf now cid s).evicted
        = (LightRAGPool.get cf2 mi crf now cid s).evicted := by
  unfold LightRAGPool.get
  cases s.find? (fun w => w.collection_id == cid) with
  | some w => exact ⟨rfl, rfl⟩
  | none =>
    cases evictWhile mi s with
    | error evs => exact ⟨rfl, rfl⟩
    | ok p =>
      obtain ⟨s2, evs⟩ := p
      cases crf with
      | true => exact ⟨rfl, rfl⟩
      | false => exact ⟨rfl, rfl⟩

/-- C8 — Backend construction failure propagates out of `get` and the
tenant is not added; close failures during capacity eviction, TTL cleanup,
release and shutdown are swallowed (the pool state never depends on the
close oracle) and the affected entries are removed regardless. -/
theorem c8_construction_propagates_close_swallowed (cf cf2 : String → Bool)
    (mi : Nat) (ttl now : Int) (cid : String) (s : Pool) (hmi : mi ≠ 0)
    (hnd : (poolKeys s).Nodup) (hmiss : cid ∉ poolKeys s) :
    ((LightRAGPool.get cf mi true now cid s).err = some GetErr.createError ∧
      cid ∉ poolKeys (LightRAGPool.get cf mi true now cid s).state) ∧
    ((LightRAGPool.get cf mi false now cid s).state
        = (LightRAGPool.get cf2 mi false now cid s).state ∧
      ∀ c ∈ (LightRAGPool.get cf mi false now cid s).evicted,
        c ∉ poolKeys (LightRAGPool.get cf mi false now cid s).state) ∧
    ((LightRAGPool.cleanup_expired cf ttl now s).1
        = (LightRAGPool.cleanup_expired cf2 ttl now s).1 ∧
      ∀ p ∈ (LightRAGPool.cleanup_expired cf ttl now s).2.1,
        p.1 ∉ poolKeys (LightRAGPool.cleanup_expired cf ttl now s).1) ∧
    (cid ∉ poolKeys (LightRAGPool.release cf cid s).1 ∧
      (LightRAGPool.close_all cf s).1 = []) := by
  have hfindnone : s.find? (fun w => w.collection_id == cid) = none := by
    rw [List.find?_eq_none]
    intro x hx
    simp only [beq_iff_eq]
    intro hk
    exact hmiss (by simpa [poolKeys, hk] using List.mem_map_of_mem (·.collection_id) hx)
  refine ⟨?_, ⟨(get_close_oracle_irrelevant cf cf2 mi false now cid s).1, ?_⟩, ⟨?_, ?_⟩, ?_, rfl⟩
  · -- construction failure: error reported, tenant absent
    unfold LightRAGPool.get
    rw [hfindnone]
    obtain ⟨⟨s2, evs⟩, hev⟩ := evictWhile_isOk hmi s
    rw [hev]
    dsimp only
    rw [if_pos rfl]
    refine ⟨rfl, ?_⟩
    intro hc
    obtain ⟨_, hsub⟩ := evictWhile_ok hev
    exact hmiss ((hsub.map (·.collection_id)).subset hc)
  · -- capacity eviction removes the evicted tenants
    unfold LightRAGPool.get
    rw [hfindnone]
    obtain ⟨⟨s2, evs⟩, hev⟩ := evictWhile_isOk hmi s
    rw [hev]
    dsimp only
    rw [if_neg Bool.false_ne_true]
    dsimp only
    intro c hc hmem
    obtain ⟨d, hd1, hd2⟩ := evictWhile_split hev
    rw [poolKeys_append] at hmem
    rcases List.mem_append.mp hmem with hmem1 | hmem2
    · -- c is a key of both the dropped prefix and the kept suffix
      rw [hd1, poolKeys_append] at hnd
      have hdisj := List.disjoint_of_nodup_append hnd
      rw [hd2] at hc
      exact hdisj hc hmem1
    · -- c would have to be the freshly inserted tenant, but cid was a miss
      simp only [poolKeys, List.map_cons, List.map_nil, List.mem_singleton] at hmem2
      rw [hd2] at hc
      apply hmiss
      rw [← hmem2, hd1, poolKeys_append]
      exact List.mem_append.mpr (Or.inl hc)
  · rfl
  · -- TTL cleanup removes every closed tenant
    intro p hp hmem
    unfold LightRAGPool.cleanup_expired at hp hmem
    dsimp only at hp hmem
    rw [foldl_filter_eq_filter] at hmem
    obtain ⟨c, hc1, hc2⟩ := List.mem_map.mp hp
    subst hc2
    simp only [poolKeys, List.mem_map] at hmem
    obtain ⟨x, hx1, hx2⟩ := hmem
    obtain ⟨_, hx4⟩ := List.mem_filter.mp hx1
    rw [hx2] at hx4
    simp only [Bool.not_eq_true'] at hx4
    rw [List.contains, List.elem_eq_mem] at hx4
    simp only [decide_eq_false_iff_not] at hx4
    exact hx4 hc1
  · -- release removes the tenant (or it was already absent)
    unfold LightRAGPool.release
    split
    · intro hc
      simp only [poolKeys, List.mem_map, List.mem_filter] at hc
      obtain ⟨x, ⟨_, hx2⟩, hx3⟩ := hc
      rw [hx3] at hx2
      simp at hx2
    · intro hc
      rename_i hany
      apply hany
      obtain ⟨x, hx1, hx2⟩ := List.mem_map.mp hc
      simp only [List.any_eq_true]
      exact ⟨x, hx1, by simp [hx2]⟩

/-- Witness for C5. -/
theorem c5_cleanup_expired_exact_witness :
    (poolKeys [(⟨"A", 0, 0⟩ : LightRAGWrapper), ⟨"B", 0, 9⟩]).Nodup ∧
    ((LightRAGPool.cleanup_expired (fun _ => false) 3 10
          [⟨"A", 0, 0⟩, ⟨"B", 0, 9⟩]).1
        = List.filter (fun w => !(decide ((3:Int) < 10 - w.last_used)))
            ([⟨"A", 0, 0⟩, ⟨"B", 0, 9⟩] : Pool) ∧
      ((LightRAGPool.cleanup_expired (fun _ => false) 3 10
          [⟨"A", 0, 0⟩, ⟨"B", 0, 9⟩]).2.1).map Prod.fst
        = (List.filter (fun w => (3:Int) < 10 - w.last_used)
            ([⟨"A", 0, 0⟩, ⟨"B", 0, 9⟩] : Pool)).map (·.collection_id) ∧
      (LightRAGPool.cleanup_expired (fun _ => false) 3 10
          [⟨"A", 0, 0⟩, ⟨"B", 0, 9⟩]).2.2
        = (List.filter (fun w => (3:Int) < 10 - w.last_used)
            ([⟨"A", 0, 0⟩, ⟨"B", 0, 9⟩] : Pool)).length ∧
      (LightRAGPool.cleanup_expired (fun _ => false) 3 10
          [⟨"A", 0, 0⟩, ⟨"B", 0, 9⟩]).1.length
        + (LightRAGPool.cleanup_expired (fun _ => false) 3 10
            [⟨"A", 0, 0⟩, ⟨"B", 0, 9⟩]).2.2
        = ([(⟨"A", 0, 0⟩ : LightRAGWrapper), ⟨"B", 0, 9⟩] : Pool).length) :=
  ⟨by decide, c5_cleanup_expired_exact (fun _ => false) 3 10
    [⟨"A", 0, 0⟩, ⟨"B", 0, 9⟩] (by decide)⟩

/-- Witness for C8. -/
theorem c8_construction_propagates_close_swallowed_witness :
    ((1 : Nat) ≠ 0 ∧ (poolKeys [(⟨"X", 0, 0⟩ : LightRAGWrapper)]).Nodup ∧
      "Y" ∉ poolKeys [(⟨"X", 0, 0⟩ : LightRAGWrapper)]) ∧
    (((LightRAGPool.get (fun _ => true) 1 true 5 "Y" [⟨"X", 0, 0⟩]).err
          = some GetErr.createError ∧
        "Y" ∉ poolKeys (LightRAGPool.get (fun _ => true) 1 true 5 "Y" [⟨"X", 0, 0⟩]).state) ∧
      ((LightRAGPool.get (fun _ => true) 1 false 5 "Y" [⟨"X", 0, 0⟩]).state
          = (LightRAGPool.get (fun _ => false) 1 false 5 "Y" [⟨"X", 0, 0⟩]).state ∧
        ∀ c ∈ (LightRAGPool.get (fun _ => true) 1 false 5 "Y" [⟨"X", 0, 0⟩]).evicted,
          c ∉ poolKeys (LightRAGPool.get (fun _ => true) 1 false 5 "Y" [⟨"X", 0, 0⟩]).state) ∧
      ((LightRAGPool.cleanup_expired (fun _ => true) 0 5 [⟨"X", 0, 0⟩]).1
          = (LightRAGPool.cleanup_expired (fun _ => false) 0 5 [⟨"X", 0, 0⟩]).1 ∧
        ∀ p ∈ (LightRAGPool.cleanup_expired (fun _ => true) 0 5 [⟨"X", 0, 0⟩]).2.1,
          p.1 ∉ poolKeys (LightRAGPool.cleanup_expired (fun _ => true) 0 5 [⟨"X", 0, 0⟩]).1) ∧
      ("Y" ∉ poolKeys (LightRAGPool.release (fun _ => true) "Y" [⟨"X", 0, 0⟩]).1 ∧
        (LightRAGPool.close_all (fun _ => true) [⟨"X", 0, 0⟩]).1 = [])) :=
  ⟨⟨by decide, by decide, by decide⟩,
    c8_construction_propagates_close_swallowed (fun _ => true) (fun _ => false)
      1 0 5 "Y" [⟨"X", 0, 0⟩] (by decide) (by decide) (by decide)⟩

/-- C4 — With `max_instances = 2`, after `get(A)`, `get(B)`, `get(A)`,
`get(C)` the `get(C)` miss evicts exactly the least-recently-used tenant
`B` (the `get(A)` hit having moved `A` to most-recently-used), and the
pool then contains exactly `A` and `C`. -/
theorem c4_lru_evicts_least_recently_used :
    (LightRAGPool.get (fun _ => false) 2 false 4 "C"
      (LightRAGPool.get (fun _ => false) 2 false 3 "A"
        (LightRAGPool.get (fun _ => false) 2 false 2 "B"
          (LightRAGPool.get (fun _ => false) 2 false 1 "A" []).state).state).state).evicted
        = ["B"] ∧
    poolKeys (LightRAGPool.get (fun _ => false) 2 false 4 "C"
      (LightRAGPool.get (fun _ => false) 2 false 3 "A"
        (LightRAGPool.get (fun _ => false) 2 false 2 "B"
          (LightRAGPool.get (fun _ => false) 2 false 1 "A" []).state).state).state).state
        = ["A", "C"] := by
  decide

/-! ## Decompression, pipeline and loop theorems -/

/-- C9 counterexample — the claim says `decompress` fails for *every*
unknown encoding, but an empty blob takes the `not compressed` early
return and is handed back untouched even under an unknown encoding. -/
theorem c9_counterexample_empty_blob_unknown_encoding :
    ("utf8" ≠ "plain" ∧ "utf8" ≠ "gzip+base64") ∧
    decompress_html (fun _ => Except.error "unused") "" "utf8"
      = DecompressResult.ok "" :=
  ⟨⟨by decide, by decide⟩, rfl⟩

/-- C9 (amended) — for a non-empty blob, `decompress_html` raises
`ValueError` on every unknown encoding and on every corrupt
`gzip+base64` blob, and returns the decoded text on valid input; a
`"plain"` encoding or an empty blob is returned unchanged; on any input
it either returns a string or raises a `ValueError`. -/
theorem c9_decompress_amended (decode : String → Except String String)
    (blob encoding : String) :
    (encoding ≠ "plain" → encoding ≠ "gzip+base64" → blob ≠ "" →
      decompress_html decode blob encoding
        = DecompressResult.valueError ("Unknown encoding: " ++ encoding)) ∧
    (∀ e, encoding = "gzip+base64" → blob ≠ "" → decode blob = Except.error e →
      decompress_html decode blob encoding
        = DecompressResult.valueError ("Failed to decompress HTML: " ++ e)) ∧
    (∀ t, encoding = "gzip+base64" → blob ≠ "" → decode blob = Except.ok t →
      decompress_html decode blob encoding = DecompressResult.ok t) ∧
    ((encoding = "plain" ∨ blob = "") →
      decompress_html decode blob encoding = DecompressResult.ok blob) ∧
    ((∃ t, decompress_html decode blob encoding = DecompressResult.ok t) ∨
      (∃ m, decompress_html decode blob encoding = DecompressResult.valueError m)) := by
  refine ⟨?_, ?_, ?_, ?_, ?_⟩
  · intro h1 h2 h3
    unfold decompress_html
    rw [if_neg (not_or.mpr ⟨h1, h3⟩), if_neg h2]
  · intro e h1 h2 hd
    subst h1
    unfold decompress_html
    rw [if_neg (not_or.mpr ⟨by decide, h2⟩), if_pos rfl, hd]
  · intro t h1 h2 hd
    subst h1
    unfold decompress_html
    rw [if_neg (not_or.mpr ⟨by decide, h2⟩), if_pos rfl, hd]
  · intro h
    unfold decompress_html
    rw [if_pos h]
  · unfold decompress_html
    by_cases h1 : encoding = "plain" ∨ blob = ""
    · rw [if_pos h1]
      exact Or.inl ⟨blob, rfl⟩
    · rw [if_neg h1]
      by_cases h2 : encoding = "gzip+base64"
      · rw [if_pos h2]
        cases decode blob with
        | ok t => exact Or.inl ⟨t, rfl⟩
        | error e => exact Or.inr ⟨_, rfl⟩
      · rw [if_neg h2]
        exact Or.inr ⟨_, rfl⟩

/-- A stub for the base64+gzip decoding chain, used to witness C9. -/
def decodeStub : String → Except String String :=
  fun b => if b = "good" then Except.ok "out" else Except.error "boom"

/-- Witness for the amended C9. -/
theorem c9_decompress_amended_witness :
    decompress_html decodeStub "x" "weird"
        = DecompressResult.valueError ("Unknown encoding: " ++ "weird") ∧
    decompress_html decodeStub "x" "gzip+base64"
        = DecompressResult.valueError ("Failed to decompress HTML: " ++ "boom") ∧
    decompress_html decodeStub "good" "gzip+base64" = DecompressResult.ok "out" ∧
    decompress_html decodeStub "" "plain" = DecompressResult.ok "" :=
  ⟨(c9_decompress_amended decodeStub "x" "weird").1 (by decide) (by decide) (by decide),
   (c9_decompress_amended decodeStub "x" "gzip+base64").2.1 "boom" rfl (by decide) rfl,
   (c9_decompress_amended decodeStub "good" "gzip+base64").2.2.1 "out" rfl (by decide) rfl,
   (c9_decompress_amended decodeStub "" "plain").2.2.2.1 (Or.inl rfl)⟩

/-- C6 — a job whose content has empty `text` and empty `html` fails fast:
`success = false`, the `EmptyContent`-kind `ValueError` message, and no
backend call (in particular no pool `get`) is made. -/
theorem c6_empty_content_fails_before_pool (env : PipeEnv)
    (job : IndexingJobMessage) (c : PageContent) (hc : job.content = some c)
    (ht : c.text = "") (hh : c.html = "") :
    (DocumentProcessor.process env job).1.success = false ∧
    (DocumentProcessor.process env job).1.error_message
        = some "Job has neither text nor HTML content" ∧
    (DocumentProcessor.process env job).2 = [] := by
  unfold DocumentProcessor.process DocumentProcessor.process_internal
    DocumentProcessor.extract_text
  rw [hc]
  simp [ht, hh, ProcessingResult.failure]

/-- Environment in which every backend operation succeeds and the clock
reads zero. -/
def envOk : PipeEnv :=
  { decode := fun _ => Except.error "corrupt",
    soup_clean := fun s => Except.ok s,
    get_err := fun _ => none,
    insert_err := fun _ _ => none,
    elapsed_ms := 0 }

def contentEmpty : PageContent :=
  { html := "", text := "", title := "", content_type := "text/html",
    encoding := "gzip+base64", html_size := 0 }

def jobEmptyContent : IndexingJobMessage :=
  { job_id := 1, request_id := 2, project_id := 3, user_id := "u1",
    collection_id := "col-1", url := "https://x/doc", depth := 0,
    parent_url := "", content := some contentEmpty, discovered_at := 0,
    metadata := [] }

/-- Witness for C6. -/
theorem c6_empty_content_fails_before_pool_witness :
    (jobEmptyContent.content = some contentEmpty ∧ contentEmpty.text = "" ∧
      contentEmpty.html = "") ∧
    ((DocumentProcessor.process envOk jobEmptyContent).1.success = false ∧
      (DocumentProcessor.process envOk jobEmptyContent).1.error_message
          = some "Job has neither text nor HTML content" ∧
      (DocumentProcessor.process envOk jobEmptyContent).2 = []) :=
  ⟨⟨rfl, rfl, rfl⟩,
    c6_empty_content_fails_before_pool envOk jobEmptyContent contentEmpty rfl rfl rfl⟩

/-- C7 — `process` is total on jobs: every per-job failure (extraction,
pool/backend construction, backend write) is caught at the
`try/except Exception` boundary of `_process_internal` and becomes a
`ProcessingResult` with `success = false` and an error message; a
successful run carries no error message. -/
theorem c7_process_never_raises (env : PipeEnv) (job : IndexingJobMessage) :
    ((DocumentProcessor.process env job).1.success = true ∧
      (DocumentProcessor.process env job).1.error_message = none) ∨
    ((DocumentProcessor.process env job).1.success = false ∧
      ((DocumentProcessor.process env job).1.error_message).isSome = true) := by
  unfold DocumentProcessor.process DocumentProcessor.process_internal
  cases hx : DocumentProcessor.extract_text env job with
  | error msg =>
    right
    simp [ProcessingResult.failure]
  | ok text =>
    dsimp only
    by_cases htext : text = ""
    · rw [if_pos htext]
      right
      simp [ProcessingResult.failure]
    · rw [if_neg htext]
      cases hg : env.get_err job.collection_id with
      | some msg =>
        right
        simp [ProcessingResult.failure]
      | none =>
        cases hi : env.insert_err job.url text with
        | some msg =>
          right
          simp [ProcessingResult.failure]
        | none =>
          left
          simp

/-- C1 — refuted by the code: the ingestion loop ignores the
`ProcessingResult` returned by its handler (`DocumentProcessor.process`
never raises), so a record whose pipeline result has `success = false` is
still followed by an offset commit. -/
theorem c1_failed_result_still_committed :
    (DocumentProcessor.process envOk jobEmptyContent).1.success = false ∧
    LoopEvent.commit ∈ recordEvents
      (fun j => HandlerBehavior.returns (DocumentProcessor.process envOk j).1)
      (Except.ok jobEmptyContent) := by
  constructor
  · rfl
  · simp [recordEvents]

/-- C2 — refuted by the code: a malformed payload (valid JSON that fails
pydantic validation of `IndexingJobMessage`) raises
`pydantic.ValidationError`, which is caught by the generic
`except Exception` arm, so the offset is NOT committed and the record is
redelivered; only the dead `except json.JSONDecodeError` arm would commit.
A payload that does parse is dispatched to the handler. -/
theorem c2_malformed_payload_not_committed
    (handler : IndexingJobMessage → HandlerBehavior) :
    recordEvents handler (Except.error PyExc.validationError) = [] ∧
    LoopEvent.commit ∉ recordEvents handler (Except.error PyExc.validationError) ∧
    ∀ job, LoopEvent.dispatchStart job ∈ recordEvents handler (Except.ok job) := by
  refine ⟨rfl, by simp [recordEvents], ?_⟩
  intro job
  unfold recordEvents
  dsimp only
  cases h : handler job <;> simp

/-! ## Sequential consumption (C10) -/

theorem pairwise_of_total {α : Type _} {R : α → α → Prop} (h : ∀ a b, R a b) :
    ∀ l : List α, l.Pairwise R := by
  intro l
  induction l with
  | nil => exact List.Pairwise.nil
  | cons a t ih => exact List.Pairwise.cons (fun b _ => h a b) ih

/-- The body of one loop iteration yields one of exactly four event
shapes. -/
theorem recordEvents_shapes (handler : IndexingJobMessage → HandlerBehavior)
    (m : Except PyExc IndexingJobMessage) :
    recordEvents handler m = [] ∨
    (∃ j, recordEvents handler m
        = [LoopEvent.dispatchStart j, LoopEvent.dispatchEnd, LoopEvent.commit]) ∨
    (∃ j, recordEvents handler m = [LoopEvent.dispatchStart j, LoopEvent.dispatchEnd]) ∨
    recordEvents handler m = [LoopEvent.commit] := by
  cases m with
  | ok job =>
    unfold recordEvents
    dsimp only
    cases handler job with
    | returns r => exact Or.inr (Or.inl ⟨job, rfl⟩)
    | raises => exact Or.inr (Or.inr (Or.inl ⟨job, rfl⟩))
  | error e =>
    cases e with
    | jsonDecodeError => exact Or.inr (Or.inr (Or.inr rfl))
    | validationError => exact Or.inl rfl
    | otherExc => exact Or.inl rfl

theorem consumeTrace_fst_ge (handler : IndexingJobMessage → HandlerBehavior) :
    ∀ (msgs : List (Except PyExc IndexingJobMessage)) (i : Nat),
      ∀ e ∈ consumeTrace handler i msgs, i ≤ e.1 := by
  intro msgs
  induction msgs with
  | nil =>
    intro i e he
    simp [consumeTrace] at he
  | cons m rest ih =>
    intro i e he
    simp only [consumeTrace] at he
    rcases List.mem_append.mp he with h1 | h2
    · obtain ⟨x, _, hx2⟩ := List.mem_map.mp h1
      rw [← hx2]
    · exact Nat.le_of_succ_le (ih (i + 1) e h2)

theorem consumeTrace_foldl_bound (handler : IndexingJobMessage → HandlerBehavior) :
    ∀ (msgs : List (Except PyExc IndexingJobMessage)) (i mx : Nat),
      ((consumeTrace handler i msgs).foldl (fun p e => inFlightStep p e.2) (0, mx)).1 = 0 ∧
      ((consumeTrace handler i msgs).foldl (fun p e => inFlightStep p e.2) (0, mx)).2
        ≤ max mx 1 := by
  intro msgs
  induction msgs with
  | nil =>
    intro i mx
    simp [consumeTrace]
  | cons m rest ih =>
    intro i mx
    simp only [consumeTrace, List.foldl_append]
    rcases recordEvents_shapes handler m with h | ⟨j, h⟩ | ⟨j, h⟩ | h <;> rw [h]
    · simpa using ih (i + 1) mx
    · have heval : (([LoopEvent.dispatchStart j, LoopEvent.dispatchEnd,
          LoopEvent.commit].map (fun e => (i, e))).foldl
            (fun p e => inFlightStep p e.2) ((0 : Nat), mx)) = (0, max mx 1) := by
        simp [inFlightStep]
      rw [heval]
      obtain ⟨h1, h2⟩ := ih (i + 1) (max mx 1)
      exact ⟨h1, le_trans h2 (by simp)⟩
    · have heval : (([LoopEvent.dispatchStart j,
          LoopEvent.dispatchEnd].map (fun e => (i, e))).foldl
            (fun p e => inFlightStep p e.2) ((0 : Nat), mx)) = (0, max mx 1) := by
        simp [inFlightStep]
      rw [heval]
      obtain ⟨h1, h2⟩ := ih (i + 1) (max mx 1)
      exact ⟨h1, le_trans h2 (by simp)⟩
    · have heval : (([LoopEvent.commit].map (fun e => (i, e))).foldl
            (fun p e => inFlightStep p e.2) ((0 : Nat), mx)) = (0, mx) := by
        simp [inFlightStep]
      rw [heval]
      exact ih (i + 1) mx

theorem consumeTrace_pairwise_le (handler : IndexingJobMessage → HandlerBehavior) :
    ∀ (msgs : List (Except PyExc IndexingJobMessage)) (i : Nat),
      List.Pairwise (fun a b => a.1 ≤ b.1) (consumeTrace handler i msgs) := by
  intro msgs
  induction msgs with
  | nil =>
    intro i
    simp [consumeTrace]
  | cons m rest ih =>
    intro i
    simp only [consumeTrace]
    rw [List.pairwise_append]
    refine ⟨?_, ih (i + 1), ?_⟩
    · exact List.pairwise_map.mpr (pairwise_of_total (fun _ _ => le_refl i) _)
    · intro a ha b hb
      obtain ⟨x, _, hx2⟩ := List.mem_map.mp ha
      rw [← hx2]
      exact Nat.le_of_succ_le (consumeTrace_fst_ge handler rest (i + 1) b hb)

theorem consumeTrace_commits_strict (handler : IndexingJobMessage → HandlerBehavior) :
    ∀ (msgs : List (Except PyExc IndexingJobMessage)) (i : Nat),
      List.Pairwise (fun a b => a.1 < b.1)
        ((consumeTrace handler i msgs).filter (fun e => e.2 = LoopEvent.commit)) := by
  intro msgs
  induction msgs with
  | nil =>
    intro i
    simp [consumeTrace]
  | cons m rest ih =>
    intro i
    simp only [consumeTrace, List.filter_append]
    rw [List.pairwise_append]
    refine ⟨?_, ih (i + 1), ?_⟩
    · rcases recordEvents_shapes handler m with h | ⟨j, h⟩ | ⟨j, h⟩ | h <;>
        rw [h] <;> simp
    · intro a ha b hb
      have ha2 := (List.mem_filter.mp ha).1
      have hb2 := (List.mem_filter.mp hb).1
      obtain ⟨x, _, hx2⟩ := List.mem_map.mp ha2
      rw [← hx2]
      exact Nat.lt_of_succ_le (consumeTrace_fst_ge handler rest (i + 1) b hb2)

/-- C10 — the consumption loop is strictly sequential: it `await`s the
pipeline call inline and decides the commit before pulling the next
record, so at most one handler call is ever in flight, events appear in
record order, and offsets are committed in strictly increasing
consumption order. -/
theorem c10_sequential_consumption (handler : IndexingJobMessage → HandlerBehavior)
    (msgs : List (Except PyExc IndexingJobMessage)) :
    maxInFlight (consumeTrace handler 0 msgs) ≤ 1 ∧
    List.Pairwise (fun a b => a.1 ≤ b.1) (consumeTrace handler 0 msgs) ∧
    List.Pairwise (fun a b => a.1 < b.1)
      ((consumeTrace handler 0 msgs).filter (fun e => e.2 = LoopEvent.commit)) := by
  refine ⟨?_, consumeTrace_pairwise_le handler msgs 0,
    consumeTrace_commits_strict handler msgs 0⟩
  have h := (consumeTrace_foldl_bound handler msgs 0 0).2
  unfold maxInFlight
  simpa using h

end McpDocs
